import Mathlib

/-!
Verification of the go-mruby-template repository: a shallow embedding of the
vendored go-mruby binding (`vendor/github.com/mitchellh/go-mruby/value.go`),
the example program (`main.go`) and the hash test. The third-party mruby C
interpreter is out of scope; it is modelled as an abstract environment
(`CState` for the mutable `mrb_state`, `CApi` for the C entry points the
binding calls). Parts of the vendored library that are not present in the
repository (`mruby.go`, `hash.go`) are modelled from the spec; each such
definition says so in its doc comment.
-/

namespace GoMruby

/-- Alias for the host string type, used in signatures of namespaces that
also declare a `String` method (mirroring Go method names). -/
abbrev GoString := String

/-- Abstract model of a C `mrb_value`: an opaque handle into the interpreter
heap, identified by a natural number. -/
structure CVal where
  id : Nat
deriving DecidableEq, Repr

/-- Abstract model of the C `mrb_state`. The `exc` field models the state's
exception slot (`state.exc` in the binding); the remaining fields model the
out-of-scope interpreter behaviour the binding relies on: `fixnumOf`,
`stringOf` and `nilVal` model the C value constructors, and `strOf` models
`mrb_obj_as_string` composed with `mrb_string_value_ptr` (what
`MrbValue.String()` reads). -/
structure CState where
  exc : Option CVal
  fixnumOf : Int → CVal
  stringOf : String → CVal
  nilVal : CVal
  strOf : CVal → String

/-- Replaces the exception slot of a state, leaving the interpreter
behaviour unchanged. Used to build concrete interpreter instances. -/
def setExc (s : CState) (e : Option CVal) : CState :=
  ⟨e, s.fixnumOf, s.stringOf, s.nilVal, s.strOf⟩

/-- `MrbValue` from value.go: a value handle paired with the interpreter
state it lives in (the Go struct holds a `*C.mrb_state`; mutation of that
state is modelled by the state snapshot stored here). -/
structure MrbValue where
  value : CVal
  state : CState

/-- `Mrb` wraps a `*C.mrb_state` (declared in the missing mruby.go; only the
wrapper shape is needed here, and value.go constructs it as `&Mrb{v.state}`). -/
structure Mrb where
  state : CState

/-- `newValue` from value.go: wraps a C value and state into an `MrbValue`. -/
def newValue (s : CState) (v : CVal) : MrbValue :=
  ⟨v, s⟩

/-- `MrbValue.String()` from value.go: the `to_s` form of the value, via
`mrb_obj_as_string` / `mrb_string_value_ptr`, modelled by `strOf`. -/
def MrbValue.String (v : MrbValue) : GoString :=
  v.state.strOf v.value

/-- `Exception` from value.go: an error value embedding an `MrbValue`
together with a cached string form. -/
structure Exception where
  mval : MrbValue
  cachedString : String

/-- `Exception.String()` from value.go: the cached string when it is
non-empty, otherwise the embedded value's string form. -/
def Exception.String (e : Exception) : GoString :=
  if e.cachedString ≠ "" then e.cachedString else e.mval.String

/-- `Exception.Error()` from value.go: delegates to `Exception.String()`. -/
def Exception.Error (e : Exception) : GoString :=
  e.String

/-- `newExceptionValue` from value.go. The Go function panics when the
state's exception slot is nil; the panic is modelled as `none`. Otherwise it
wraps the exception object and caches its string form at construction time. -/
def newExceptionValue (s : CState) : Option Exception :=
  match s.exc with
  | none => none
  | some excv =>
    let result := newValue s excv
    some ⟨result, result.String⟩

/-- A Go `error` value returned by the binding: either an interpreter
`Exception` or an error built with `fmt.Errorf`. -/
inductive GoErr where
  | exception (e : Exception)
  | errorf (msg : String)

/-- The Go `error` interface method on the two error shapes the binding
produces. -/
def GoErr.Error : GoErr → String
  | .exception e => e.Error
  | .errorf msg => msg

/-- The `Int` native type of value.go (`type Int int`). -/
structure IntV where
  i : Int

/-- The `String` native type of value.go (`type String string`). -/
structure StringV where
  s : String

/-- The `NilType` native type of value.go (`type NilType [0]byte`). -/
inductive NilTypeV where
  | nil

/-- Modelled from the spec: `Mrb.FixnumValue` lives in the vendored
library's mruby.go, which is not under src; per the spec it converts a host
integer to the interpreter's native value representation as a direct wrapper
around the C API, modelled by the state's `fixnumOf`. -/
def Mrb.FixnumValue (m : Mrb) (i : Int) : MrbValue :=
  ⟨m.state.fixnumOf i, m.state⟩

/-- Modelled from the spec: `Mrb.StringValue` (missing mruby.go) converts a
host string to the interpreter's native value representation, modelled by
the state's `stringOf`. -/
def Mrb.StringValue (m : Mrb) (s : String) : MrbValue :=
  ⟨m.state.stringOf s, m.state⟩

/-- Modelled from the spec: `Mrb.NilValue` (missing mruby.go) produces the
interpreter's nil value, modelled by the state's `nilVal`. -/
def Mrb.NilValue (m : Mrb) : MrbValue :=
  ⟨m.state.nilVal, m.state⟩

/-- `Int.MrbValue` from value.go: a direct wrapper around `FixnumValue`. -/
def IntV.MrbValue (x : IntV) (m : Mrb) : MrbValue :=
  m.FixnumValue x.i

/-- `NilType.MrbValue` from value.go: a direct wrapper around `NilValue`. -/
def NilTypeV.MrbValue (_ : NilTypeV) (m : Mrb) : MrbValue :=
  m.NilValue

/-- `String.MrbValue` from value.go: a direct wrapper around `StringValue`. -/
def StringV.MrbValue (x : StringV) (m : Mrb) : MrbValue :=
  m.StringValue x.s

/-- A value of the Go `Value` interface: one of the native types of
value.go, or an `MrbValue` (which implements the interface by returning
itself). -/
inductive GoValue where
  | int (x : IntV)
  | str (x : StringV)
  | nil (x : NilTypeV)
  | mrb (v : MrbValue)

/-- Dispatch of the `Value` interface's `MrbValue` method over the
implementations in value.go. -/
def GoValue.MrbValue : GoValue → Mrb → MrbValue
  | .int x, m => x.MrbValue m
  | .str x, m => x.MrbValue m
  | .nil x, m => x.MrbValue m
  | .mrb v, _ => v

/-- The C entry points that value.go calls and the missing mruby.go wraps.
`intern` models `mrb_intern_cstr` (a symbol for a method name);
`funcall_argv` and `funcall_with_block` model the two funcall entry points,
returning the result value and the possibly-mutated state (a raised
exception appears in the returned state's `exc` slot); `loadExec` models
the script execution underlying the missing `LoadString`. -/
structure CApi where
  intern : CState → String → Nat
  funcall_argv : CState → CVal → Nat → List CVal → CVal × CState
  funcall_with_block : CState → CVal → Nat → List CVal → CVal → CVal × CState
  loadExec : CState → String → CVal × CState

/-- Observable C-side events of one run of the binding's `call`: the
`C.CString` allocation and `C.free` of the method name, and the funcall
C API invocations. -/
inductive CEvent where
  | cstringAlloc (s : String)
  | cstringFree (s : String)
  | funcallArgv (self : CVal) (sym : Nat) (argv : List CVal)
  | funcallWithBlock (self : CVal) (sym : Nat) (argv : List CVal) (block : CVal)
deriving DecidableEq, Repr

/-- Whether an event is one of the two funcall C API invocations. -/
def CEvent.isFuncall : CEvent → Bool
  | .funcallArgv _ _ _ => true
  | .funcallWithBlock _ _ _ _ => true
  | _ => false

/-- The argv conversion loop of `call` in value.go: each argument is
converted through its `MrbValue` method against `&Mrb{v.state}`. -/
def argvOf (v : MrbValue) (args : List GoValue) : List CVal :=
  args.map fun a => (a.MrbValue ⟨v.state⟩).value

/-- The single C funcall performed by `call` in value.go: `mrb_funcall_argv`
when no block is given, `mrb_funcall_with_block` otherwise, on the interned
method symbol and converted argv. Returns the result and the post-call
state. -/
def funcallStep (api : CApi) (v : MrbValue) (method : String) (args : List GoValue)
    (block : Option GoValue) : CVal × CState :=
  let argv := argvOf v args
  let blockV := block.map fun b => (b.MrbValue ⟨v.state⟩).value
  let sym := api.intern v.state method
  match blockV with
  | none => api.funcall_argv v.state v.value sym argv
  | some bv => api.funcall_with_block v.state v.value sym argv bv

/-- `call` from value.go (lines 86-133): converts the arguments and block,
allocates a C string for the method name, performs the one funcall, then
checks the state's exception slot: a raised exception yields a nil result
and an error built by `newExceptionValue`, otherwise the wrapped result and
a nil error. The deferred `C.free` runs on both paths before returning; the
second component is the trace of C-side events. -/
def call (api : CApi) (v : MrbValue) (method : String) (args : List GoValue)
    (block : Option GoValue) : (Option MrbValue × Option GoErr) × List CEvent :=
  let rs := funcallStep api v method args block
  let s' := rs.2
  let fcEv :=
    match block.map (fun b => (b.MrbValue ⟨v.state⟩).value) with
    | none => CEvent.funcallArgv v.value (api.intern v.state method) (argvOf v args)
    | some bv => CEvent.funcallWithBlock v.value (api.intern v.state method) (argvOf v args) bv
  let ret :=
    if s'.exc ≠ none then (none, (newExceptionValue s').map GoErr.exception)
    else (some (newValue s' rs.1), none)
  (ret, [CEvent.cstringAlloc method, fcEv, CEvent.cstringFree method])

/-- `Call` from value.go: `v.call(method, args, nil)`. -/
def MrbValue.Call (api : CApi) (v : MrbValue) (method : GoString) (args : List GoValue) :
    (Option MrbValue × Option GoErr) × List CEvent :=
  call api v method args none

/-- The error message `CallBlock` produces for an empty argument list. -/
def errMsgArgs : String :=
  "args must be non-empty and have a proc at the end"

/-- `CallBlock` from value.go: with no arguments it returns a nil result
and an `fmt.Errorf` error without touching the interpreter; otherwise it
calls `call` with the first `n-1` arguments and the last argument as the
block. -/
def MrbValue.CallBlock (api : CApi) (v : MrbValue) (method : GoString) (args : List GoValue) :
    (Option MrbValue × Option GoErr) × List CEvent :=
  match args with
  | [] => ((none, some (GoErr.errorf errMsgArgs)), [])
  | a :: rest =>
    let n := (a :: rest).length
    call api v method ((a :: rest).take (n - 1))
      (some ((a :: rest).getLast (List.cons_ne_nil a rest)))

/-- Modelled from the spec: `Mrb.LoadString` lives in the vendored
library's mruby.go, which is not under src; per the spec it evaluates a
script string in the interpreter and marshals the result or raised
exception back into a host value, translating a raised exception into a
host error exactly as `call` does. Also returns the post-execution state. -/
def Mrb.LoadString (api : CApi) (m : Mrb) (script : String) :
    (Option MrbValue × Option GoErr) × CState :=
  let rs := api.loadExec m.state script
  let s' := rs.2
  if s'.exc ≠ none then ((none, (newExceptionValue s').map GoErr.exception), s')
  else ((some (newValue s' rs.1), none), s')

/-- Observable events of one run of the example program `main.go`:
constructing the interpreter state, loading the script, printing or
panicking, and closing the state (the deferred `mrb.Close()`). -/
inductive MainEvent where
  | newMrb
  | loadStringEv (script : String)
  | printedEv (s : String)
  | panickedEv (msg : String)
  | close
deriving DecidableEq, Repr

/-- Whether a main event is a script load. -/
def MainEvent.isLoad : MainEvent → Bool
  | .loadStringEv _ => true
  | _ => false

/-- A single quote character, built by code point so the script literal can
be assembled exactly as in main.go. -/
def sq : String :=
  String.singleton (Char.ofNat 39)

/-- The one script string main.go loads:
the Go literal is a join of three words on a single-quoted space. -/
def mainScript : String :=
  "[\"Hello\", \"from\", \"!yburm\".reverse].join(" ++ sq ++ " " ++ sq ++ ")"

/-- The string form of the result as main.go prints it; the `none` branch is
unreachable because `LoadString` pairs a nil error with a non-nil result
(a nil receiver would crash the Go program there). -/
def optValueString : Option MrbValue → String
  | some r => r.String
  | none => ""

/-- `main` from main.go: constructs one interpreter state, loads the one
script string, panics with the error's message if loading failed, otherwise
prints the result prefixed with a literal; the deferred `Close` runs on both
paths before the program exits, after a raised panic propagates through it. -/
def mainGo (api : CApi) (s0 : CState) : List MainEvent :=
  let lr := (Mrb.mk s0).LoadString api mainScript
  match lr.1.2 with
  | some e =>
    [MainEvent.newMrb, MainEvent.loadStringEv mainScript,
     MainEvent.panickedEv e.Error, MainEvent.close]
  | none =>
    [MainEvent.newMrb, MainEvent.loadStringEv mainScript,
     MainEvent.printedEv ("Result: " ++ optValueString lr.1.1 ++ "\n"), MainEvent.close]

/-- First-match association-list lookup, the key-equality semantics of the
modelled hash. -/
def lookupA {K V : Type} [DecidableEq K] : List (K × V) → K → Option V
  | [], _ => none
  | (k', v) :: rest, k => if k' = k then some v else lookupA rest k

/-- Modelled from the spec: the mruby hash wrapped by the vendored
library's hash.go, which is not under src. The spec describes read/write
hash operations with get/set/keys/delete semantics; the hash is modelled as
an association list over the interpreter's key equality. -/
structure HashM (K V : Type) where
  entries : List (K × V)

/-- Modelled from the spec: `Hash.Get` (missing hash.go) reads the value
stored under a key; a missing key yields the interpreter's nil. -/
def HashM.Get {K V : Type} [DecidableEq K] (h : HashM K V) (k : K) : Option V :=
  lookupA h.entries k

/-- Modelled from the spec: `Hash.Set` (missing hash.go) stores a value
under a key, replacing any existing entry; it returns a nil error and the
updated hash. -/
def HashM.Set {K V : Type} [DecidableEq K] (h : HashM K V) (k : K) (v : V) :
    Option GoString × HashM K V :=
  (none, ⟨(k, v) :: h.entries.filter fun p => p.1 ≠ k⟩)

/-- Modelled from the spec: `Hash.Keys` (missing hash.go) lists the keys of
the hash. -/
def HashM.Keys {K V : Type} (h : HashM K V) : List K :=
  h.entries.map Prod.fst

/-- Modelled from the spec: `Hash.Delete` (missing hash.go) removes the
entry under a key, returning the value that was stored there and a nil
error; a missing key yields a nil value, a nil error and an unchanged hash. -/
def HashM.Delete {K V : Type} [DecidableEq K] (h : HashM K V) (k : K) :
    (Option V × Option GoString) × HashM K V :=
  match lookupA h.entries k with
  | some v => ((some v, none), ⟨h.entries.filter fun p => p.1 ≠ k⟩)
  | none => ((none, none), h)

/-- A concrete exception-free interpreter state, for evaluating the model
on closed inputs. -/
def cstate0 : CState :=
  ⟨none, fun _ => ⟨1⟩, fun _ => ⟨2⟩, ⟨0⟩, fun _ => "s"⟩

/-- A concrete state whose exception slot holds a raised exception and
whose string form of every value is a fixed message. -/
def excState : CState :=
  ⟨some ⟨7⟩, fun _ => ⟨1⟩, fun _ => ⟨2⟩, ⟨0⟩, fun _ => "boom"⟩

/-- A concrete receiver value in the exception-free state. -/
def mval0 : MrbValue :=
  ⟨⟨10⟩, cstate0⟩

/-- A concrete C API whose funcalls never raise: the returned state is the
one passed in (with `cstate0`'s `exc` already `none`). -/
def api0 : CApi :=
  ⟨fun _ _ => 0, fun s _ _ _ => (⟨3⟩, s), fun s _ _ _ _ => (⟨4⟩, s), fun s _ => (⟨5⟩, s)⟩

/-- A concrete C API whose funcalls and script execution always raise: the
returned state carries an exception in its slot. -/
def apiRaise : CApi :=
  ⟨fun _ _ => 0,
   fun s _ _ _ => (⟨3⟩, setExc s (some ⟨9⟩)),
   fun s _ _ _ _ => (⟨4⟩, setExc s (some ⟨9⟩)),
   fun s _ => (⟨5⟩, setExc s (some ⟨9⟩))⟩

/-- The exception value `newExceptionValue` builds from `excState`. -/
def exc0 : Exception :=
  ⟨newValue excState ⟨7⟩, "boom"⟩

/-- Helper: on a state whose exception slot is occupied, `newExceptionValue`
does not hit the panic branch. -/
theorem newExceptionValue_some (s : CState) (h : s.exc ≠ none) :
    newExceptionValue s ≠ none := by
  unfold newExceptionValue
  cases hx : s.exc with
  | none => exact absurd hx h
  | some e => simp

/-- Helper: the pair `call` returns, characterized by the exception slot of
the post-funcall state. -/
theorem call_result_eq (api : CApi) (v : MrbValue) (method : String)
    (args : List GoValue) (block : Option GoValue) :
    (call api v method args block).1
      = if (funcallStep api v method args block).2.exc ≠ none
        then (none, (newExceptionValue (funcallStep api v method args block).2).map
          GoErr.exception)
        else (some (newValue (funcallStep api v method args block).2
          (funcallStep api v method args block).1), none) := rfl

/-- Helper: when `LoadString` reports no error, its result is the wrapped
value produced by the script execution. -/
theorem loadString_ok (api : CApi) (m : Mrb) (script : String)
    (h : (m.LoadString api script).1.2 = none) :
    (m.LoadString api script).1.1
      = some (newValue (api.loadExec m.state script).2 (api.loadExec m.state script).1) := by
  by_cases hx : (api.loadExec m.state script).2.exc = none
  · simp [Mrb.LoadString, hx]
  · exfalso
    have hs := newExceptionValue_some _ hx
    simp [Mrb.LoadString, hx, Option.map_eq_none'] at h
    exact hs h

/-- C10: `newExceptionValue` panics (modelled as `none`) exactly when the
state's exception slot is nil; when the state holds a raised exception, the
panic branch is unreachable and a non-nil `Exception` is returned. -/
theorem newExceptionValue_panic_iff (s : CState) :
    (newExceptionValue s = none ↔ s.exc = none) ∧
    (s.exc ≠ none → newExceptionValue s ≠ none) := by
  constructor
  · unfold newExceptionValue
    cases hx : s.exc with
    | none => simp
    | some e => simp
  · exact newExceptionValue_some s

/-- Witness for C10 at concrete states with and without a raised exception. -/
theorem newExceptionValue_panic_iff_witness :
    newExceptionValue excState ≠ none ∧ newExceptionValue (setExc excState none) = none := by
  constructor
  · exact (newExceptionValue_panic_iff excState).2 (by simp [excState])
  · exact (newExceptionValue_panic_iff (setExc excState none)).1.mpr rfl

/-- C9: every `Exception` built by `newExceptionValue` caches, at
construction time, the string form of the underlying exception value, and
`Error()` and `String()` both return that cached string whenever it is
non-empty, independently of the interpreter state afterwards. -/
theorem exception_cached_string (s : CState) (excv : CVal) (h : s.exc = some excv)
    (e : Exception) (he : newExceptionValue s = some e) :
    e.cachedString = (newValue s excv).String ∧
    (e.cachedString ≠ "" → e.Error = e.cachedString ∧ e.String = e.cachedString) := by
  simp only [newExceptionValue, h] at he
  simp only [Option.some.injEq] at he
  subst he
  refine ⟨rfl, fun hne => ?_⟩
  constructor
  · simp [Exception.Error, Exception.String, hne]
  · simp [Exception.String, hne]

/-- Witness for C9 at a concrete raised state with a non-empty message. -/
theorem exception_cached_string_witness :
    exc0.cachedString = (newValue excState ⟨7⟩).String ∧
    (exc0.cachedString ≠ "" → exc0.Error = exc0.cachedString ∧ exc0.String = exc0.cachedString) :=
  exception_cached_string excState ⟨7⟩ rfl exc0 rfl

/-- C8: the native Go types convert as direct wrappers: `Int` via
`FixnumValue`, `String` via `StringValue`, and `Nil` via `NilValue`. -/
theorem native_type_conversions (i : Int) (s : String) (m : Mrb) :
    (IntV.mk i).MrbValue m = m.FixnumValue i ∧
    (StringV.mk s).MrbValue m = m.StringValue s ∧
    NilTypeV.nil.MrbValue m = m.NilValue :=
  ⟨rfl, rfl, rfl⟩

/-- C3: `CallBlock` on an empty argument list returns a nil result together
with the non-nil `fmt.Errorf` error, and performs no interpreter funcall. -/
theorem callBlock_empty_args (api : CApi) (v : MrbValue) (method : String) :
    MrbValue.CallBlock api v method [] = ((none, some (GoErr.errorf errMsgArgs)), []) ∧
    (MrbValue.CallBlock api v method []).2.filter CEvent.isFuncall = [] :=
  ⟨rfl, rfl⟩

/-- C4: on a non-empty argument list, `CallBlock` is the internal `call`
with the first `n-1` arguments positional and the last as the block, and
`Call` is the internal `call` with all arguments positional and no block. -/
theorem callBlock_call_refinement (api : CApi) (v : MrbValue) (method : String)
    (args : List GoValue) (h : args ≠ []) :
    MrbValue.CallBlock api v method args
      = call api v method args.dropLast (some (args.getLast h)) ∧
    MrbValue.Call api v method args = call api v method args none := by
  refine ⟨?_, rfl⟩
  match args with
  | [] => exact absurd rfl h
  | a :: rest =>
    show call api v method ((a :: rest).take ((a :: rest).length - 1)) _ = _
    rw [List.dropLast_eq_take]

/-- Witness for C4 at a concrete one-element argument list. -/
theorem callBlock_call_refinement_witness :
    MrbValue.CallBlock api0 mval0 "m" [GoValue.nil NilTypeV.nil]
      = call api0 mval0 "m" [] (some (GoValue.nil NilTypeV.nil)) := by
  have h := callBlock_call_refinement api0 mval0 "m" [GoValue.nil NilTypeV.nil]
    (List.cons_ne_nil _ _)
  simpa using h.1

/-- C1: after the one funcall inside `call`, a raised exception in the
interpreter state yields a nil result and a non-nil error built from that
exception; no raised exception yields a non-nil result and a nil error; the
result is nil exactly when the error is non-nil. -/
theorem call_exception_propagation (api : CApi) (v : MrbValue) (method : String)
    (args : List GoValue) (block : Option GoValue) :
    ((funcallStep api v method args block).2.exc ≠ none →
      (call api v method args block).1.1 = none ∧
      (call api v method args block).1.2
        = (newExceptionValue (funcallStep api v method args block).2).map GoErr.exception ∧
      (call api v method args block).1.2 ≠ none) ∧
    ((funcallStep api v method args block).2.exc = none →
      (call api v method args block).1.1 ≠ none ∧
      (call api v method args block).1.2 = none) ∧
    ((call api v method args block).1.1 = none ↔
      (call api v method args block).1.2 ≠ none) := by
  rw [call_result_eq]
  by_cases hx : (funcallStep api v method args block).2.exc = none
  · simp [hx]
  · have hs := newExceptionValue_some _ hx
    simp [hx, Option.map_eq_none', hs]

/-- Witness for C1 at a concrete raising interpreter. -/
theorem call_exception_propagation_witness :
    (call apiRaise mval0 "m" [] none).1.1 = none ∧
    (call apiRaise mval0 "m" [] none).1.2 ≠ none := by
  have hx : (funcallStep apiRaise mval0 "m" [] none).2.exc ≠ none := by decide
  have h := call_exception_propagation apiRaise mval0 "m" [] none
  exact ⟨(h.1 hx).1, (h.1 hx).2.2⟩

/-- C6: one run of `call` makes exactly one funcall C API invocation —
`mrb_funcall_argv` when no block is given, `mrb_funcall_with_block` when a
block is given — and the rest of the trace is only the method-name string
glue around it. -/
theorem call_single_c_api_call (api : CApi) (v : MrbValue) (method : String)
    (args : List GoValue) (block : Option GoValue) :
    ((call api v method args block).2.filter CEvent.isFuncall).length = 1 ∧
    (block = none →
      (call api v method args block).2.filter CEvent.isFuncall
        = [CEvent.funcallArgv v.value (api.intern v.state method) (argvOf v args)]) ∧
    (∀ b, block = some b →
      (call api v method args block).2.filter CEvent.isFuncall
        = [CEvent.funcallWithBlock v.value (api.intern v.state method) (argvOf v args)
            ((b.MrbValue ⟨v.state⟩).value)]) ∧
    (call api v method args block).2
      = CEvent.cstringAlloc method
        :: ((call api v method args block).2.filter CEvent.isFuncall
            ++ [CEvent.cstringFree method]) := by
  cases block with
  | none => simp [call, CEvent.isFuncall, List.filter]
  | some b => simp [call, CEvent.isFuncall, List.filter]

/-- Witness for C6 at a concrete blockless invocation. -/
theorem call_single_c_api_call_witness :
    (call api0 mval0 "m" [] none).2.filter CEvent.isFuncall
      = [CEvent.funcallArgv ⟨10⟩ 0 []] := by
  have h := (call_single_c_api_call api0 mval0 "m" [] none).2.1 rfl
  simpa using h

/-- C7: on every path of `call` the method-name C string is allocated first
and freed last (the deferred free also runs on the exception path), and the
example program's deferred `Close` is the last event before it exits, on the
print path and on the panic path alike. -/
theorem cstring_freed_state_closed (api : CApi) (v : MrbValue) (method : String)
    (args : List GoValue) (block : Option GoValue) (s0 : CState) :
    (call api v method args block).2.head? = some (CEvent.cstringAlloc method) ∧
    (call api v method args block).2.getLast? = some (CEvent.cstringFree method) ∧
    (mainGo api s0).getLast? = some MainEvent.close := by
  refine ⟨rfl, ?_, ?_⟩
  · simp [call]
  · unfold mainGo
    cases hx : ((Mrb.mk s0).LoadString api mainScript).1.2 <;> simp [hx]

/-- C5: the example program constructs one interpreter state, loads exactly
the one script string, panics with the error's message when loading fails,
otherwise prints the result's string form behind the literal prefix, and
closes the state before exiting on both paths. -/
theorem main_behaviour (api : CApi) (s0 : CState) :
    ((mainGo api s0).filter MainEvent.isLoad = [MainEvent.loadStringEv mainScript]) ∧
    ((mainGo api s0).countP (fun ev => ev = MainEvent.newMrb) = 1) ∧
    (∀ e, ((Mrb.mk s0).LoadString api mainScript).1.2 = some e →
      mainGo api s0 = [MainEvent.newMrb, MainEvent.loadStringEv mainScript,
        MainEvent.panickedEv e.Error, MainEvent.close]) ∧
    (((Mrb.mk s0).LoadString api mainScript).1.2 = none →
      ∃ r, ((Mrb.mk s0).LoadString api mainScript).1.1 = some r ∧
        mainGo api s0 = [MainEvent.newMrb, MainEvent.loadStringEv mainScript,
          MainEvent.printedEv ("Result: " ++ r.String ++ "\n"), MainEvent.close]) ∧
    (mainGo api s0).getLast? = some MainEvent.close := by
  cases hx : ((Mrb.mk s0).LoadString api mainScript).1.2 with
  | none =>
    have hr := loadString_ok api (Mrb.mk s0) mainScript hx
    refine ⟨?_, ?_, ?_, ?_, ?_⟩
    · simp [mainGo, hx, MainEvent.isLoad]
    · simp [mainGo, hx]
    · intro e he
      simp at he
    · intro _
      refine ⟨newValue (api.loadExec s0 mainScript).2 (api.loadExec s0 mainScript).1, hr, ?_⟩
      simp [mainGo, hx, hr, optValueString]
    · simp [mainGo, hx]
  | some e =>
    refine ⟨?_, ?_, ?_, ?_, ?_⟩
    · simp [mainGo, hx, MainEvent.isLoad]
    · simp [mainGo, hx]
    · intro e' he'
      injection he' with heq
      subst heq
      simp [mainGo, hx]
    · intro hc
      simp at hc
    · simp [mainGo, hx]

/-- Witness for C5 on a concrete raising interpreter: the program panics
with the exception's cached message and still closes the state last. -/
theorem main_behaviour_witness :
    mainGo apiRaise cstate0
      = [MainEvent.newMrb, MainEvent.loadStringEv mainScript,
         MainEvent.panickedEv "s", MainEvent.close] := by
  have h := (main_behaviour apiRaise cstate0).2.2.1
    (GoErr.exception ⟨newValue (setExc cstate0 (some ⟨9⟩)) ⟨9⟩, "s"⟩) rfl
  exact h

/-- C2: the hash operations have get/set/keys/delete semantics: a set is
observed by a get of the same key, deleting a present key returns the value
stored under it with a nil error and removes it from the keys, and deleting
an absent key returns a nil value with a nil error. -/
theorem hash_get_set_keys_delete {K V : Type} [DecidableEq K] (h : HashM K V) (k : K) (v : V) :
    ((h.Set k v).1 = none ∧ (h.Set k v).2.Get k = some v) ∧
    (∀ w, h.Get k = some w →
      (h.Delete k).1.1 = some w ∧ (h.Delete k).1.2 = none ∧ k ∉ (h.Delete k).2.Keys) ∧
    (h.Get k = none → (h.Delete k).1 = (none, none)) := by
  refine ⟨⟨rfl, ?_⟩, ?_, ?_⟩
  · simp [HashM.Set, HashM.Get, lookupA]
  · intro w hw
    simp only [HashM.Get] at hw
    refine ⟨?_, ?_, ?_⟩
    · simp [HashM.Delete, hw]
    · simp [HashM.Delete, hw]
    · simp only [HashM.Delete, hw, HashM.Keys]
      simp [List.mem_map, List.mem_filter]
  · intro hw
    simp only [HashM.Get] at hw
    simp [HashM.Delete, hw]

/-- Witness for C2 on concrete hashes with a present and an absent key. -/
theorem hash_get_set_keys_delete_witness :
    ((HashM.mk [(1, 2)] : HashM Nat Nat).Delete 1).1.1 = some 2 ∧
    ((HashM.mk ([] : List (Nat × Nat))).Delete 1).1 = (none, none) := by
  have h1 := hash_get_set_keys_delete (HashM.mk [(1, 2)] : HashM Nat Nat) 1 2
  have h2 := hash_get_set_keys_delete (HashM.mk ([] : List (Nat × Nat))) 1 2
  exact ⟨(h1.2.1 2 (by decide)).1, h2.2.2 (by decide)⟩

end GoMruby
